import Mathlib

/-!
# Verification of the sed binning subsystem

Shallow embedding of `sed/binning/binning.py` and `sed/binning/utils.py`
(the N-dimensional parallel histogram engine).

Conventions of the embedding:
* Python floats are modelled as exact rationals (`ℚ`); all arithmetic the
  claims depend on is integer-valued, so no rounding behaviour is lost.
* Python exceptions are modelled by the inductive `PyErr`; fallible code
  returns `Except PyErr α`.
* In-place mutation of a dataframe column is modelled by state passing:
  a Python function that mutates a frame becomes a Lean function that
  takes the frame and returns the updated frame.
* Pseudo-random draws of the jitter injector are modelled as an explicit
  noise stream passed in as an argument (the distribution of the draws is
  external randomness, irrelevant to the control-flow properties proved
  here).
* The flexible (dynamically typed) Python arguments are modelled by the
  inductive types `BinsArg` / `BinEntry` / `AxesArg` / `JitterArg`, which
  cover exactly the argument shapes documented for the functions. Runtime
  types outside the documented surface (e.g. tuples of arity other than 3,
  a plain string passed as `axes` together with `skip_test=True`) are not
  modelled.
-/

/-- Python exception values, by class, with the message. -/
inductive PyErr where
  | valueError (msg : String)
  | typeError (msg : String)
  | attributeError (msg : String)
  | keyError (msg : String)
  | indexError (msg : String)
  | assertionError (msg : String)
  | zeroDivisionError (msg : String)
deriving DecidableEq, Repr

/-- One entry of a `bins` sequence: a Python `int` (bin count), a 3-tuple
`(start, end, num_bins)`, or a `np.ndarray` of bin edges. -/
inductive BinEntry where
  | count (n : ℤ)
  | triple (lo hi : ℚ) (n : ℤ)
  | edges (e : List ℚ)
deriving DecidableEq, Repr

/-- The `bins` argument of the binning functions: a single `int`, a
dictionary mapping axis names to entries, or a sequence of entries. -/
inductive BinsArg where
  | single (n : ℤ)
  | mapping (m : List (String × BinEntry))
  | seq (l : List BinEntry)
deriving DecidableEq, Repr

/-- The `axes` argument: omitted (`None`), a single string, or a sequence
of strings. -/
inductive AxesArg where
  | none
  | one (s : String)
  | many (l : List String)
deriving DecidableEq, Repr

/-- Embedding of `np.linspace(lo, hi, num)` with `endpoint=True`, in exact arithmetic:
`num` evenly spaced samples from `lo` to `hi` inclusive.  For `num = 1`
numpy returns `[lo]`, which the formula also yields since `x / 0 = 0`
in `ℚ`. -/
def linspaceQ (lo hi : ℚ) (num : ℕ) : List ℚ :=
  (List.range num).map fun (i : ℕ) => lo + (hi - lo) * (i : ℚ) / ((num : ℚ) - 1)

/-- Is this entry a Python 3-tuple? (`isinstance(x, tuple)`) -/
def BinEntry.isTriple : BinEntry → Bool
  | .triple _ _ _ => true
  | _ => false

/-- Is this entry a Python `int`? (`isinstance(x, int)`) -/
def BinEntry.isCount : BinEntry → Bool
  | .count _ => true
  | _ => false

/-- Is this entry a `np.ndarray`? (`isinstance(x, np.ndarray)`) -/
def BinEntry.isEdges : BinEntry → Bool
  | .edges _ => true
  | _ => false

/-- The loop `for i, x in enumerate(bins): bins_.append(np.linspace(
ranges[i][0], ranges[i][1], x + 1, endpoint=True))` from
`_simplify_binning_arguments` (utils.py lines 123-133).  Indexing
`ranges[i]` past the end raises `IndexError`; `np.linspace` with a
negative sample count raises `ValueError`. -/
def explodeIntBins : List BinEntry → List (ℚ × ℚ) → Except PyErr (List BinEntry)
  | [], _ => .ok []
  | .count n :: rest, rs =>
    match rs with
    | [] => .error (.indexError "list index out of range")
    | r :: rtail =>
      if n + 1 < 0 then
        .error (.valueError "Number of samples must be non-negative")
      else
        match explodeIntBins rest rtail with
        | .error e => .error e
        | .ok tail => .ok (.edges (linspaceQ r.1 r.2 (n + 1).toNat) :: tail)
  | b :: _, _ => .error (.typeError ("unexpected bin entry " ++ toString (repr b)))

/-- Embedding of `sed.binning.utils._simplify_binning_arguments` (utils.py lines
18-146), transcribed statement by statement.  Note that the source
returns the pair `(list(bins), list(axes))` — the `ranges` value is not
part of the return value. -/
def _simplify_binning_arguments (bins : BinsArg) (axes : AxesArg)
    (ranges : Option (List (ℚ × ℚ))) :
    Except PyErr (List (List ℚ) × List String) :=
  -- `if isinstance(axes, str): axes = [axes]`
  let axes0 : Option (List String) :=
    match axes with
    | .none => Option.none
    | .one s => some [s]
    | .many l => some l
  -- `if isinstance(bins, dict): ...` unravel to axes and bins
  -- `if isinstance(bins, int): bins = [bins] * len(axes)`; `len(None)`
  -- raises `TypeError`.
  let step1 : Except PyErr (List BinEntry × Option (List String)) :=
    match bins with
    | .mapping m => .ok (m.map (·.2), some (m.map (·.1)))
    | .single n =>
      match axes0 with
      | Option.none => .error (.typeError "object of type NoneType has no len()")
      | some ax => .ok (List.replicate ax.length (BinEntry.count n), some ax)
    | .seq l => .ok (l, axes0)
  match step1 with
  | .error e => .error e
  | .ok (bins1, axes1) =>
    -- `if axes is None: raise AttributeError(...)`
    match axes1 with
    | Option.none => .error (.attributeError "Must define on which axes to bin")
    | some axs =>
      -- `if all(isinstance(x, tuple) for x in bins): ...` expand tuples to
      -- bins and ranges.  On an empty list `all` is true and `bins[0]`
      -- raises `IndexError`.
      let step2 : Except PyErr (List BinEntry × Option (List (ℚ × ℚ))) :=
        if bins1.all BinEntry.isTriple then
          match bins1 with
          | [] => .error (.indexError "list index out of range")
          | _ =>
            .ok (bins1.map (fun b => match b with
                  | .triple _ _ n => BinEntry.count n
                  | x => x),
                some (bins1.map (fun b => match b with
                  | .triple lo hi _ => (lo, hi)
                  | _ => (0, 0))))
        else .ok (bins1, ranges)
      match step2 with
      | .error e => .error e
      | .ok (bins2, ranges2) =>
        -- `if all(isinstance(x, int) for x in bins): ...` explode ints to
        -- edge arrays via `np.linspace`; a missing `ranges` raises
        -- `AttributeError`.
        let step3 : Except PyErr (List BinEntry) :=
          if bins2.all BinEntry.isCount then
            match ranges2 with
            | Option.none =>
              .error (.attributeError
                "Must provide a range if bins is an integer or list of integers")
            | some rs => explodeIntBins bins2 rs
          else .ok bins2
        match step3 with
        | .error e => .error e
        | .ok bins3 =>
          -- `if not all(isinstance(x, np.ndarray) for x in bins): raise TypeError`
          if bins3.all BinEntry.isEdges then
            -- `if len(axes) != len(bins): raise AttributeError`
            if axs.length = bins3.length then
              .ok (bins3.map (fun b => match b with
                    | .edges e => e
                    | _ => []),
                  axs)
            else
              .error (.attributeError "axes and bins must have the same number of elements")
          else .error (.typeError "Could not interpret bins")

/-! ## Dataframes and the jitter injector -/

/-- A (pandas/dask) dataframe partition: ordered, named numeric columns.
Column labels are assumed unique (as in the pandas frames the binning
engine receives). -/
structure DataFrame where
  cols : List (String × List ℚ)
deriving DecidableEq, Repr

/-- Column labels, in order (`df.columns`). -/
def DataFrame.colNames (df : DataFrame) : List String := df.cols.map (·.1)

/-- Column access `df[col]`: values of a column, if present. -/
def DataFrame.getCol (df : DataFrame) (c : String) : Option (List ℚ) :=
  (df.cols.find? (fun p => p.1 == c)).map (·.2)

/-- Number of rows (taken from the first column). -/
def DataFrame.nrows (df : DataFrame) : ℕ :=
  (df.cols.head?.map (·.2.length)).getD 0

/-- Values matrix `df.values`: the rows of the frame, each row listing the columns in
frame order. -/
def DataFrame.rows (df : DataFrame) : List (List ℚ) :=
  (List.range df.nrows).map fun i => df.cols.map fun c => c.2.getD i 0

/-- Column assignment `df[col] = v`: replace the values of column `col`. -/
def DataFrame.setCol (df : DataFrame) (c : String) (v : List ℚ) : DataFrame :=
  ⟨df.cols.map fun p => if p.1 = c then (c, v) else p⟩

/-- Selection copy `part[axes].copy()`: a fresh frame holding the selected columns, in
the selected order. -/
def DataFrame.selectCopy (df : DataFrame) (axes : List String) : DataFrame :=
  ⟨axes.map fun a => (a, (df.getCol a).getD [])⟩

/-- Embedding of `sed.binning.binning.apply_jitter_on_column` (binning.py lines
393-419).  `df[col]` on a missing column raises `KeyError`; an
unrecognized `mode` falls through both branches, leaving the frame
untouched.  Python mutates `df` in place; the embedding returns the
updated frame.  The i.i.d. draws of `np.random.uniform(-1, 1)` resp.
`np.random.standard_normal()` are supplied by the `noise` stream. -/
def apply_jitter_on_column (df : DataFrame) (amp : ℚ) (col : String)
    (mode : String) (noise : ℕ → ℚ) : Except PyErr DataFrame :=
  match df.getCol col with
  | Option.none => .error (.keyError col)
  | some vals =>
    if mode = "uniform" then
      .ok (df.setCol col (vals.mapIdx fun i v => v + amp * noise i))
    else if mode = "normal" then
      .ok (df.setCol col (vals.mapIdx fun i v => v + amp * noise i))
    else .ok df

/-! ## Histogram kernels -/

/-- The bin index of value `v` for one axis with the given edges:
`none` when `v` lies outside `[edges_0, edges_last]`, the last bin when
`v` equals the rightmost edge, else the unique `i` with
`edges_i ≤ v < edges_(i+1)` (for monotonically increasing edges).  This
is the shared semantics of `np.histogramdd` and of the accelerated
kernel. -/
def binIndex (edges : List ℚ) (v : ℚ) : Option ℕ :=
  if edges.length < 2 then Option.none
  else
    let lo := edges.headD 0
    let hi := edges.getLastD 0
    if v < lo ∨ hi < v then Option.none
    else if v = hi then some (edges.length - 2)
    else some ((edges.countP fun e => decide (e ≤ v)) - 1)

/-- The multi-index of one event row, axis by axis; `none` as soon as the
event falls out of range on some axis (the event is skipped, not
counted). -/
def rowIndex : List (List ℚ) → List ℚ → Option (List ℕ)
  | [], [] => some []
  | es :: erest, v :: vrest =>
    match binIndex es v, rowIndex erest vrest with
    | some i, some rest => some (i :: rest)
    | _, _ => Option.none
  | _, _ => Option.none

/-- A dense N-dimensional histogram: its shape and its cells in row-major
order. -/
structure NDHist where
  shape : List ℕ
  data : List ℕ
deriving DecidableEq, Repr

/-- All multi-indices of a shape, in row-major order. -/
def allIndices : List ℕ → List (List ℕ)
  | [] => [[]]
  | s :: rest => ((List.range s).map fun i => (allIndices rest).map (i :: ·)).flatten

/-- Row-major flattening of a multi-index. -/
def flatIndex (shape idx : List ℕ) : ℕ :=
  (idx.zip shape).foldl (fun a p => a * p.2 + p.1) 0

/-- Embedding of `np.histogramdd(sample, bins=edges)`: the cell of a multi-index counts
the events whose `rowIndex` is that multi-index; out-of-range events are
excluded. -/
def np_histogramdd (rows : List (List ℚ)) (edgess : List (List ℚ)) : NDHist :=
  let shape := edgess.map fun e => e.length - 1
  { shape := shape
    data := (allIndices shape).map fun idx =>
      (rows.filter fun r => rowIndex edgess r == some idx).length }

/-- Modelled from the spec: `sed/binning/numba_bin.py` (the module
providing `numba_histogramdd`, imported by binning.py line 20) is not
among the sources; §4.2 specifies the accelerated kernel as: for each
event, compute its per-axis bin index via a search over edges, include
values exactly at the rightmost edge in the last bin, skip events out of
range on any axis, and increment the corresponding cell — numerically
identical to the general `np.histogramdd` path.  Transcribed as an
event-loop over a flat cell array. -/
def numba_histogramdd (rows : List (List ℚ)) (edgess : List (List ℚ)) : NDHist :=
  let shape := edgess.map fun e => e.length - 1
  let size := shape.foldl (· * ·) 1
  { shape := shape
    data := rows.foldl
      (fun d r =>
        match rowIndex edgess r with
        | some idx => d.set (flatIndex shape idx) (d.getD (flatIndex shape idx) 0 + 1)
        | Option.none => d)
      (List.replicate size 0) }

/-- Resolve the `bins` entries a kernel receives into per-axis edge
arrays: an edge array is used as is; an integer count takes its edges
from the matching `ranges` entry (`n + 1` evenly spaced points).  Both
kernels require a range for integer bins (`np.histogramdd` would
otherwise autorange from the data, a path no call in the claims
reaches and which is not modelled). -/
def binsToEdges : List BinEntry → Option (List (ℚ × ℚ)) → Except PyErr (List (List ℚ))
  | [], _ => .ok []
  | .edges e :: rest, rs => do
    let tail ← binsToEdges rest (rs.map (·.drop 1))
    return e :: tail
  | .count n :: rest, some (r :: rtail) =>
    if n < 0 then .error (.valueError "bins must be positive")
    else do
      let tail ← binsToEdges rest (some rtail)
      return linspaceQ r.1 r.2 (n + 1).toNat :: tail
  | .count _ :: _, _ => .error (.typeError "range required for integer bins")
  | .triple _ _ _ :: _, _ => .error (.typeError "bins entry must be int or ndarray")

/-! ## bin_partition -/

/-- The per-axis jitter configuration dictionary
(`{'amplitude': ..., 'mode': ...}`); absent keys fall back to the
defaults `0.5` and `"uniform"` via `.get`. -/
structure JitterParams where
  amplitude : Option ℚ
  mode : Option String
deriving DecidableEq, Repr

/-- The `jitter` argument of `bin_partition`: a list of axis names, or a
dictionary mapping axis names to an optional parameter dictionary. -/
inductive JitterArg where
  | names (l : List String)
  | mapping (m : List (String × Option JitterParams))
deriving DecidableEq, Repr

/-- The comprehension `{k: None for k in jitter}` builds a dict, which keeps the first
occurrence of each key. -/
def dedupKeepFirst : List String → List String
  | [] => []
  | x :: xs => x :: dedupKeepFirst (xs.filter fun y => !(y == x))
termination_by l => l.length
decreasing_by
  simp only [List.length_cons]
  exact Nat.lt_succ_of_le (List.length_filter_le _ _)

/-- The bin-size computation of the jitter branch of `bin_partition`
(binning.py lines 122-131): an `int` bin uses the matching `ranges`
entry; an edge array uses the first edge spacing, asserting the spacing
is uniform (compared against the spacing between edges `-3` and `-2`); a
3-tuple is subscriptable, so `_bin[0] - _bin[1]` is `start - end` and
the assertion trivially passes.  Out-of-bounds subscripts raise
`IndexError`, subscripting `None` raises `TypeError`, and `/ 0` raises
`ZeroDivisionError`, as in Python. -/
def jitterBinsize (binsL : List BinEntry) (ranges : Option (List (ℚ × ℚ)))
    (axIndex : ℕ) : Except PyErr ℚ :=
  match binsL[axIndex]? with
  | Option.none => .error (.indexError "list index out of range")
  | some (.count n) =>
    match ranges with
    | Option.none => .error (.typeError "NoneType object is not subscriptable")
    | some rs =>
      match rs[axIndex]? with
      | Option.none => .error (.indexError "list index out of range")
      | some r =>
        if n = 0 then .error (.zeroDivisionError "division by zero")
        else .ok (|r.2 - r.1| / (n : ℚ))
  | some (.edges e) =>
    if e.length < 2 then .error (.indexError "index out of bounds")
    else if e.length < 3 then .error (.indexError "index out of bounds")
    else
      let b1 := |e.getD 0 0 - e.getD 1 0|
      let b2 := |e.getD (e.length - 3) 0 - e.getD (e.length - 2) 0|
      if b1 = b2 then .ok b1
      else .error (.assertionError "bins are not uniform. Cannot apply jitter.")
  | some (.triple lo hi _) => .ok |lo - hi|

/-- The jitter loop of `bin_partition` (binning.py lines 115-132): for
each configured column that is among the binned axes, compute the bin
size, then jitter the column of the scratch frame in place.  The second
argument of `noise` indexes the loop iteration, so each
`apply_jitter_on_column` call receives fresh draws. -/
def runJitter (axesL : List String) (binsL : List BinEntry)
    (ranges : Option (List (ℚ × ℚ))) (noise : ℕ → ℕ → ℚ) :
    DataFrame → List (String × Option JitterParams) → ℕ → Except PyErr DataFrame
  | sel, [], _ => .ok sel
  | sel, (col, jpars) :: rest, k =>
    if col ∈ axesL then
      let jp := jpars.getD ⟨Option.none, Option.none⟩
      let amp := jp.amplitude.getD (1 / 2)
      let mode := jp.mode.getD "uniform"
      let axIndex := axesL.findIdx fun a => a == col
      match jitterBinsize binsL ranges axIndex with
      | .error e => .error e
      | .ok binsize =>
        match apply_jitter_on_column sel (amp * binsize) col mode (noise k) with
        | .error e => .error e
        | .ok sel2 => runJitter axesL binsL ranges noise sel2 rest (k + 1)
    else runJitter axesL binsL ranges noise sel rest (k + 1)

/-- Embedding of `col_id = [part.columns.get_loc(axis) for axis in axes]`
(binning.py line 108); a missing column label raises `KeyError`. -/
def colIds (part : DataFrame) : List String → Except PyErr (List ℕ)
  | [] => .ok []
  | a :: rest =>
    match part.colNames.findIdx? (fun c => c == a) with
    | Option.none => .error (.keyError a)
    | some i =>
      match colIds part rest with
      | .error e => .error e
      | .ok tail => .ok (i :: tail)

/-- The return value and raised exceptions of
`sed.binning.binning.bin_partition` (binning.py lines 27-157).

With `skip_test=False` (the default) the source executes
`bins, axes, ranges = _simplify_binning_arguments(bins, axes, ranges)`
(line 101); since `_simplify_binning_arguments` returns the 2-tuple
`(bins, axes)`, the 3-way unpacking raises
`ValueError: not enough values to unpack (expected 3, got 2)` whenever
the normalizer itself does not raise first.

With `skip_test=True` the arguments are used as passed (the source
merely casts them; a sequence of bins and a sequence of axis strings is
the documented shape for this internal path). -/
def bin_partition_result (part : DataFrame) (bins : BinsArg) (axes : AxesArg)
    (ranges : Option (List (ℚ × ℚ))) (hist_mode : String)
    (jitter : Option JitterArg) (noise : ℕ → ℕ → ℚ)
    (return_edges : Bool) (skip_test : Bool) :
    Except PyErr (NDHist × Option (List (List ℚ))) :=
  if skip_test = false then
    match _simplify_binning_arguments bins axes ranges with
    | .error e => .error e
    | .ok _pair => .error (.valueError "not enough values to unpack (expected 3, got 2)")
  else
    match bins, axes with
    | BinsArg.seq binsL, AxesArg.many axesL =>
      match colIds part axesL with
      | .error e => .error e
      | .ok colId =>
        let valsE : Except PyErr (List (List ℚ)) :=
          match jitter with
          | Option.none =>
            -- `vals = part.values[:, col_id]`
            .ok (part.rows.map fun r => colId.map fun i => r.getD i 0)
          | some jarg =>
            -- `sel_part = part[axes].copy()`, then the jitter loop,
            -- then `vals = sel_part.values`
            let sel0 := part.selectCopy axesL
            let items := match jarg with
              | .names l => (dedupKeepFirst l).map fun k => (k, (Option.none : Option JitterParams))
              | .mapping m => m
            match runJitter axesL binsL ranges noise sel0 items 0 with
            | .error e => .error e
            | .ok sel => .ok sel.rows
        match valsE with
        | .error e => .error e
        | .ok vals =>
          if hist_mode = "numba" then
            match binsToEdges binsL ranges with
            | .error e => .error e
            | .ok edgess =>
              .ok (numba_histogramdd vals edgess,
                if return_edges then some edgess else Option.none)
          else if hist_mode = "numpy" then
            match binsToEdges binsL ranges with
            | .error e => .error e
            | .ok edgess =>
              .ok (np_histogramdd vals edgess,
                if return_edges then some edgess else Option.none)
          else
            .error (.valueError ("No binning method " ++ hist_mode ++
              " available. Please choose between numba and numpy."))
    | _, _ => .error (.typeError "bins/axes argument shape not supported with skip_test")

/-- The function `bin_partition` together with the caller-visible state of the `part`
argument after the call.  The source body never assigns to `part`: the
only in-place dataframe mutation, `apply_jitter_on_column`, is applied
to the scratch copy `sel_part = part[axes].copy()` (line 111), so the
caller's frame after the call is the frame passed in. -/
def bin_partition (part : DataFrame) (bins : BinsArg) (axes : AxesArg)
    (ranges : Option (List (ℚ × ℚ))) (hist_mode : String)
    (jitter : Option JitterArg) (noise : ℕ → ℕ → ℚ)
    (return_edges : Bool) (skip_test : Bool) :
    Except PyErr (NDHist × Option (List (List ℚ))) × DataFrame :=
  (bin_partition_result part bins axes ranges hist_mode jitter noise
    return_edges skip_test, part)

/-! ## bin_dataframe -/

/-- The labeled array artifact (`xr.DataArray`) that `bin_dataframe` is
documented to return. -/
structure XArray where
  data : NDHist
  coords : List (String × List ℚ)
  dims : List String
deriving DecidableEq, Repr

set_option linter.unusedVariables false in
/-- The return value and raised exceptions of
`sed.binning.binning.bin_dataframe` (binning.py lines 160-390).

Its first statement (line 248) is
`bins, axes, ranges = _simplify_binning_arguments(bins, axes, ranges)`;
since `_simplify_binning_arguments` returns the 2-tuple `(bins, axes)`,
the 3-way unpacking raises
`ValueError: not enough values to unpack (expected 3, got 2)` on every
call on which the normalizer does not raise first.  There is no control
path into the remainder of the function (the coordinate construction,
the batching loop over partitions, the `legacy`/`lean`/`fast`
combination, the `return_partitions` stacking, and the `DataArray`
packaging, lines 250-390, are all dead code), so the embedding maps
every argument combination to the corresponding exception.  The
combination arithmetic of the dead code is analysed separately below
(`legacyCombine`, `leanCombine`, `fastCombine`, `fastSlabLo`,
`fastSlabHi`). -/
def bin_dataframe (df : List DataFrame) (bins : BinsArg) (axes : AxesArg)
    (ranges : Option (List (ℚ × ℚ))) (hist_mode : String) (mode : String)
    (jitter : Option JitterArg) (noise : ℕ → ℕ → ℚ) (n_cores : ℕ)
    (return_partitions : Bool) : Except PyErr XArray :=
  match _simplify_binning_arguments bins axes ranges with
  | .error e => .error e
  | .ok _pair => .error (.valueError "not enough values to unpack (expected 3, got 2)")

/-- The lower slab bound `int(j * full_shape[0] / n_cores)` used by the
`"fast"` combination mode of `bin_dataframe` (binning.py lines 336 and
352); for the machine sizes involved the float division followed by
truncation equals exact floor division. -/
def fastSlabLo (S n j : ℕ) : ℕ := j * S / n

/-- The upper slab bound `int((j + 1) * full_shape[0] / n_cores)` used by
the `"fast"` combination mode of `bin_dataframe` (binning.py lines 337
and 353). -/
def fastSlabHi (S n j : ℕ) : ℕ := (j + 1) * S / n

/-! ## Fixtures and result classifiers -/

/-- The single partition of the spec's boundary scenario: one column "x"
holding the 11 values 0, 1, ..., 10. -/
def dfScenario : DataFrame := ⟨[("x", [0, 1, 2, 3, 4, 5, 6, 7, 8, 9, 10])]⟩

/-- A two-row partition with columns "x". -/
def dfPartA : DataFrame := ⟨[("x", [0, 1])]⟩

/-- Another two-row partition with column "x". -/
def dfPartB : DataFrame := ⟨[("x", [1, 0])]⟩

/-- A partition with zero rows. -/
def dfEmpty : DataFrame := ⟨[("x", [])]⟩

/-- A zero noise stream (jitter draws all 0). -/
def zeroNoise : ℕ → ℕ → ℚ := fun _ _ => 0

/-- Does this call result represent a raised `ValueError`? -/
def isValueErrorB {α : Type} : Except PyErr α → Bool
  | .error (.valueError _) => true
  | _ => false

/-- Did this call return normally? -/
def exceptIsOk {α : Type} : Except PyErr α → Bool
  | .ok _ => true
  | .error _ => false

/-! ## Claim theorems -/

/-- C1: the spec's scenario claims that `bin_partition` with `bins=10`,
`ranges=[(0,10)]`, `axes=["x"]` and default `skip_test=False` on a
partition holding 0,1,...,10 returns a 10-bin histogram `[1,...,1,2]`.
On the source, the call instead raises
`ValueError: not enough values to unpack (expected 3, got 2)` at
binning.py line 101, because `_simplify_binning_arguments` returns the
2-tuple `(bins, axes)` while `bin_partition` unpacks three values; no
histogram is produced. -/
theorem bin_partition_scenario_raises_unpack_valueerror :
    bin_partition dfScenario (BinsArg.single 10) (AxesArg.one "x")
        (some [(0, 10)]) "numba" Option.none zeroNoise false false
      = (Except.error (PyErr.valueError "not enough values to unpack (expected 3, got 2)"),
         dfScenario) := by
  rfl

/-- Supporting evidence that the scenario claim matches the intent of the
rest of the code: running the post-normalization path (`skip_test=True`
with the edge array `np.linspace(0, 10, 11)` that the normalizer
produces for `bins=10`, `ranges=[(0,10)]`) on the same partition yields
the 10-bin histogram `[1, 1, 1, 1, 1, 1, 1, 1, 1, 2]` — 11 counts in
total, with the value 10 (exactly at the rightmost edge) included in the
last bin.  First, the normalized edges for `bins=10`, `ranges=[(0,10)]`
evaluate to the integers 0..10. -/
theorem linspaceQ_zero_ten_eleven :
    linspaceQ 0 10 11 = [0, 1, 2, 3, 4, 5, 6, 7, 8, 9, 10] := by
  norm_num [linspaceQ, List.range_succ]

theorem bin_partition_scenario_intended_histogram :
    bin_partition_result dfScenario
        (BinsArg.seq [BinEntry.edges (linspaceQ 0 10 11)]) (AxesArg.many ["x"])
        Option.none "numba" Option.none zeroNoise false true
      = Except.ok (⟨[10], [1, 1, 1, 1, 1, 1, 1, 1, 1, 2]⟩, Option.none) := by
  rw [linspaceQ_zero_ten_eleven]
  rfl

/-- C2: the claim states that `bin_dataframe` with modes "fast", "lean"
and "legacy" produces the same final histogram.  On the source, no mode
produces any histogram: every `bin_dataframe` call raises
`ValueError: not enough values to unpack (expected 3, got 2)` at
binning.py line 248 (the 3-way unpacking of the 2-tuple returned by
`_simplify_binning_arguments`), before any partition is binned.  The
three modes do agree — on the exception. -/
theorem bin_dataframe_all_modes_raise_unpack_valueerror :
    (bin_dataframe [dfPartA, dfPartB] (BinsArg.seq [BinEntry.edges [0, 1, 2]])
        (AxesArg.many ["x"]) Option.none "numba" "fast" Option.none zeroNoise 2 false
      = Except.error (PyErr.valueError "not enough values to unpack (expected 3, got 2)"))
    ∧ (bin_dataframe [dfPartA, dfPartB] (BinsArg.seq [BinEntry.edges [0, 1, 2]])
        (AxesArg.many ["x"]) Option.none "numba" "lean" Option.none zeroNoise 2 false
      = Except.error (PyErr.valueError "not enough values to unpack (expected 3, got 2)"))
    ∧ (bin_dataframe [dfPartA, dfPartB] (BinsArg.seq [BinEntry.edges [0, 1, 2]])
        (AxesArg.many ["x"]) Option.none "numba" "legacy" Option.none zeroNoise 2 false
      = Except.error (PyErr.valueError "not enough values to unpack (expected 3, got 2)")) :=
  ⟨rfl, rfl, rfl⟩

/-- C4: the claim states that `bin_dataframe` with
`return_partitions=True` returns a stack of per-partition histograms
with a trailing partition dimension.  On the source, the call raises
`ValueError: not enough values to unpack (expected 3, got 2)` at
binning.py line 248 before the partition loop; the stacking path (lines
366-374) is unreachable and nothing is returned. -/
theorem bin_dataframe_return_partitions_raises_unpack_valueerror :
    bin_dataframe [dfPartA, dfPartB, dfScenario] (BinsArg.single 2)
        (AxesArg.many ["x"]) (some [(0, 2)]) "numba" "fast" Option.none zeroNoise 3 true
      = Except.error (PyErr.valueError "not enough values to unpack (expected 3, got 2)") := by
  rfl

/-- C6: the claim describes the NaN-to-zero substitution of the final
"legacy" accumulation (binning.py lines 377-381).  On the source that
accumulation is unreachable: every `bin_dataframe` call — in particular
every `mode="legacy"` call, here with an all-empty partition among the
inputs — raises `ValueError: not enough values to unpack (expected 3,
got 2)` at line 248, so no combined histogram (NaN-substituted or not)
is ever produced. -/
theorem bin_dataframe_legacy_raises_unpack_valueerror :
    bin_dataframe [dfEmpty, dfPartA] (BinsArg.seq [BinEntry.count 2])
        (AxesArg.many ["x"]) (some [(0, 2)]) "numpy" "legacy" Option.none zeroNoise 2 false
      = Except.error (PyErr.valueError "not enough values to unpack (expected 3, got 2)") := by
  rfl

/-- C8 counterexample: the claim says that with `bins` not a mapping and
`axes` omitted — including `bins` a single integer — the normalizer
fails with an attribute error.  For `bins=10`, `axes=None` the call
fails with a `TypeError` instead: broadcasting the integer executes
`[bins] * len(axes)` (utils.py line 84), and `len(None)` raises
`TypeError` before the `axes is None` check on line 91 is reached. -/
theorem simplify_single_int_no_axes_is_typeerror :
    _simplify_binning_arguments (BinsArg.single 10) AxesArg.none Option.none
      = Except.error (PyErr.typeError "object of type NoneType has no len()") := by
  rfl

/-- C8 amended: with `bins` not a mapping and `axes` omitted entirely the
normalizer always fails and produces no result, but the exception class
depends on the shape of `bins`: a sequence of bin entries reaches the
`axes is None` check and raises `AttributeError`, while a single integer
raises `TypeError` from `len(None)` on the earlier broadcasting line. -/
theorem simplify_no_axes_always_fails :
    (∀ (n : ℤ) (r : Option (List (ℚ × ℚ))),
        _simplify_binning_arguments (BinsArg.single n) AxesArg.none r
          = Except.error (PyErr.typeError "object of type NoneType has no len()"))
    ∧ (∀ (l : List BinEntry) (r : Option (List (ℚ × ℚ))),
        _simplify_binning_arguments (BinsArg.seq l) AxesArg.none r
          = Except.error (PyErr.attributeError "Must define on which axes to bin")) := by
  exact ⟨fun _ _ => rfl, fun _ _ => rfl⟩

/-- C7: `bin_partition` applies the jitter perturbation only to the
scratch copy `sel_part = part[axes].copy()`; the caller's partition is
only read, so after the call (whatever the arguments, the jitter
specification and the random draws, and whether the call returns a
histogram or raises) every column of the caller's frame holds exactly
the values it held before. -/
theorem bin_partition_never_mutates_caller_frame (part : DataFrame)
    (bins : BinsArg) (axes : AxesArg) (ranges : Option (List (ℚ × ℚ)))
    (hist_mode : String) (jitter : Option JitterArg) (noise : ℕ → ℕ → ℚ)
    (return_edges skip_test : Bool) :
    (bin_partition part bins axes ranges hist_mode jitter noise
        return_edges skip_test).2 = part := by
  rfl

/-- C10: `apply_jitter_on_column` with a `mode` other than "uniform" and
"normal" falls through both branches of its if/elif (binning.py lines
412-419): provided the column exists (so that reading `df[col].size` on
line 411 succeeds), the call returns without raising and leaves the
dataframe unchanged — the unrecognized mode is silently ignored. -/
theorem apply_jitter_unknown_mode_is_noop (df : DataFrame) (amp : ℚ)
    (col : String) (mode : String) (noise : ℕ → ℚ)
    (hcol : (df.getCol col).isSome = true)
    (h1 : mode ≠ "uniform") (h2 : mode ≠ "normal") :
    apply_jitter_on_column df amp col mode noise = Except.ok df := by
  unfold apply_jitter_on_column
  cases hv : df.getCol col with
  | none => rw [hv] at hcol; simp at hcol
  | some vals => simp [h1, h2]

/-- Witness for C10 at a concrete frame and the unknown mode
"gaussian". -/
theorem apply_jitter_unknown_mode_is_noop_witness :
    apply_jitter_on_column ⟨[("x", [1, 2])]⟩ 3 "x" "gaussian" (fun _ => 1)
      = Except.ok ⟨[("x", [1, 2])]⟩ :=
  apply_jitter_unknown_mode_is_noop ⟨[("x", [1, 2])]⟩ 3 "x" "gaussian" (fun _ => 1)
    (by decide) (by decide) (by decide)

/-- A label that occurs in the list is found by `findIdx?`. -/
theorem findIdx_isSome_of_mem (l : List String) (a : String) (h : a ∈ l) :
    (l.findIdx? fun c => c == a).isSome = true := by
  induction l with
  | nil => cases h
  | cons x xs ih =>
    rw [List.findIdx?_cons]
    by_cases hx : (x == a) = true
    · simp [hx]
    · have hmem : a ∈ xs := by
        cases h with
        | head => simp at hx
        | tail _ h' => exact h'
      simp [hx, ih hmem]

/-- Resolution of `col_id` succeeds when every requested axis is a column
of the partition. -/
theorem colIds_ok (part : DataFrame) (axesL : List String)
    (h : ∀ a ∈ axesL, a ∈ part.colNames) :
    ∃ ids, colIds part axesL = Except.ok ids := by
  induction axesL with
  | nil => exact ⟨[], rfl⟩
  | cons a rest ih =>
    have ha : (part.colNames.findIdx? fun c => c == a).isSome = true :=
      findIdx_isSome_of_mem _ _ (h a (by simp))
    obtain ⟨i, hi⟩ := Option.isSome_iff_exists.mp ha
    obtain ⟨ids, hids⟩ := ih fun b hb => h b (by simp [hb])
    exact ⟨i :: ids, by simp [colIds, hi, hids]⟩

/-- C5: an unknown selector string is reported as a `ValueError`, never
silently ignored, and no result is returned:
(i) `bin_partition` with any `hist_mode` other than "numba" and "numpy"
and the default `skip_test=False` raises a `ValueError` on every
otherwise-valid input (on the source the `ValueError` raised is the
tuple-unpacking error of binning.py line 101, which fires before the
dispatch of lines 136-152 is reached);
(ii) with `skip_test=True` (so that execution reaches the kernel
dispatch) the documented dispatch `ValueError` of lines 149-152 is
raised, provided the requested axis columns exist;
(iii) `bin_dataframe` with `return_partitions` unset and any `mode`
other than "fast", "lean" and "legacy" raises a `ValueError` on every
input that passes normalization (on the source this is again the
unpacking error of line 248, raised before the mode dispatch of line
361). -/
theorem unknown_selector_raises_valueerror (hm : String)
    (h1 : hm ≠ "numba") (h2 : hm ≠ "numpy") :
    (∀ (part : DataFrame) (bins : BinsArg) (axes : AxesArg)
        (ranges : Option (List (ℚ × ℚ))) (jitter : Option JitterArg)
        (noise : ℕ → ℕ → ℚ) (re : Bool),
      exceptIsOk (_simplify_binning_arguments bins axes ranges) = true →
      isValueErrorB (bin_partition part bins axes ranges hm jitter noise re false).1 = true)
    ∧ (∀ (part : DataFrame) (binsL : List BinEntry) (axesL : List String)
        (ranges : Option (List (ℚ × ℚ))) (noise : ℕ → ℕ → ℚ) (re : Bool),
      (∀ a ∈ axesL, a ∈ part.colNames) →
      isValueErrorB (bin_partition part (BinsArg.seq binsL) (AxesArg.many axesL)
        ranges hm Option.none noise re true).1 = true)
    ∧ (∀ (df : List DataFrame) (bins : BinsArg) (axes : AxesArg)
        (ranges : Option (List (ℚ × ℚ))) (mode : String)
        (jitter : Option JitterArg) (noise : ℕ → ℕ → ℚ) (n_cores : ℕ),
      mode ≠ "fast" → mode ≠ "lean" → mode ≠ "legacy" →
      exceptIsOk (_simplify_binning_arguments bins axes ranges) = true →
      isValueErrorB (bin_dataframe df bins axes ranges hm mode jitter noise
        n_cores false) = true) := by
  refine ⟨?_, ?_, ?_⟩
  · intro part bins axes ranges jitter noise re hok
    unfold bin_partition bin_partition_result
    cases hs : _simplify_binning_arguments bins axes ranges with
    | error e => rw [hs] at hok; simp [exceptIsOk] at hok
    | ok p => simp [hs, isValueErrorB]
  · intro part binsL axesL ranges noise re hcols
    obtain ⟨ids, hids⟩ := colIds_ok part axesL hcols
    unfold bin_partition bin_partition_result
    simp only [Bool.false_eq_true, if_false, reduceCtorEq]
    rw [hids]
    simp [h1, h2, isValueErrorB]
  · intro df bins axes ranges mode jitter noise n_cores _ _ _ hok
    unfold bin_dataframe
    cases hs : _simplify_binning_arguments bins axes ranges with
    | error e => rw [hs] at hok; simp [exceptIsOk] at hok
    | ok p => simp [isValueErrorB]

/-- Witness for C5: `hist_mode="scipy"` makes `bin_partition` raise a
`ValueError` both on the default path and on the `skip_test=True` path,
and `mode="average"` makes `bin_dataframe` raise a `ValueError`, at
concrete inputs. -/
theorem unknown_selector_raises_valueerror_witness :
    isValueErrorB (bin_partition dfScenario (BinsArg.single 10) (AxesArg.one "x")
        (some [(0, 10)]) "scipy" Option.none zeroNoise false false).1 = true
    ∧ isValueErrorB (bin_partition dfScenario (BinsArg.seq [BinEntry.count 10])
        (AxesArg.many ["x"]) (some [(0, 10)]) "scipy" Option.none zeroNoise false true).1 = true
    ∧ isValueErrorB (bin_dataframe [dfScenario] (BinsArg.single 10) (AxesArg.one "x")
        (some [(0, 10)]) "scipy" "average" Option.none zeroNoise 2 false) = true := by
  have h := unknown_selector_raises_valueerror "scipy" (by decide) (by decide)
  exact ⟨h.1 dfScenario _ _ _ Option.none zeroNoise false (by rfl),
    h.2.1 dfScenario _ ["x"] _ zeroNoise false (by decide),
    h.2.2 [dfScenario] _ _ _ "average" Option.none zeroNoise 2
      (by decide) (by decide) (by decide) (by rfl)⟩

/-! ## Properties of the bin specification normalizer (C3) -/

theorem linspaceQ_length (lo hi : ℚ) (num : ℕ) : (linspaceQ lo hi num).length = num := by
  simp [linspaceQ]

theorem linspaceQ_getD (lo hi : ℚ) (num j : ℕ) (h : j < num) :
    (linspaceQ lo hi num).getD j 0 = lo + (hi - lo) * j / ((num : ℚ) - 1) := by
  unfold linspaceQ
  rw [List.getD_eq_getElem?_getD, List.getElem?_map, List.getElem?_range h]
  rfl

theorem linspaceQ_head (lo hi : ℚ) (num : ℕ) (h : 0 < num) :
    (linspaceQ lo hi num).head? = some lo := by
  obtain ⟨k, rfl⟩ := Nat.exists_eq_succ_of_ne_zero (Nat.pos_iff_ne_zero.mp h)
  simp [linspaceQ, List.range_succ_eq_map]

theorem linspaceQ_getLast (lo hi : ℚ) (k : ℕ) (hk : k ≠ 0) :
    (linspaceQ lo hi (k + 1)).getLast? = some hi := by
  rw [List.getLast?_eq_getElem?, linspaceQ_length]
  simp only [Nat.add_sub_cancel]
  have h1 : (linspaceQ lo hi (k + 1)).getD k 0 = lo + (hi - lo) * k / (((k + 1 : ℕ) : ℚ) - 1) :=
    linspaceQ_getD lo hi (k + 1) k (by omega)
  have hlen : k < (linspaceQ lo hi (k + 1)).length := by rw [linspaceQ_length]; omega
  rw [List.getD_eq_getElem _ _ hlen] at h1
  rw [List.getElem?_eq_getElem hlen, h1]
  have hkq : ((k : ℚ)) ≠ 0 := by exact_mod_cast hk
  have : (((k + 1 : ℕ) : ℚ) - 1) = (k : ℚ) := by push_cast; ring
  rw [this, mul_div_assoc, div_self hkq]
  ring_nf

theorem linspaceQ_strict_adj (lo hi : ℚ) (num j : ℕ) (hlt : lo < hi)
    (h2 : 2 ≤ num) (hj : j + 1 < num) :
    (linspaceQ lo hi num).getD j 0 < (linspaceQ lo hi num).getD (j + 1) 0 := by
  rw [linspaceQ_getD _ _ _ _ (by omega), linspaceQ_getD _ _ _ _ hj]
  have hden : (0 : ℚ) < (num : ℚ) - 1 := by
    have : (2 : ℚ) ≤ (num : ℚ) := by exact_mod_cast h2
    linarith
  apply add_lt_add_left
  rw [div_lt_div_iff_of_pos_right hden]
  apply mul_lt_mul_of_pos_left _ (by linarith : (0 : ℚ) < hi - lo)
  push_cast
  linarith

/-- On a list of integer bin counts with enough ranges, the edge
generation loop succeeds and produces one `np.linspace` edge array per
count. -/
theorem explodeIntBins_ok (counts : List ℤ) (rs : List (ℚ × ℚ))
    (hlen : rs.length = counts.length) (hpos : ∀ c ∈ counts, 0 ≤ c) :
    explodeIntBins (counts.map BinEntry.count) rs
      = Except.ok (List.zipWith (fun (n : ℤ) (r : ℚ × ℚ) =>
          BinEntry.edges (linspaceQ r.1 r.2 (n + 1).toNat)) counts rs) := by
  induction counts generalizing rs with
  | nil =>
    cases rs with
    | nil => rfl
    | cons r rt => simp at hlen
  | cons c cs ih =>
    cases rs with
    | nil => simp at hlen
    | cons r rt =>
      have hc : (0 : ℤ) ≤ c := hpos c (by simp)
      have hneg : ¬(c + 1 < 0) := by omega
      have htail := ih rt (by simpa using hlen) (fun x hx => hpos x (by simp [hx]))
      simp [explodeIntBins, hneg, htail]

/-- Every entry produced by the edge-generation loop is an edge array. -/
theorem all_isEdges_zipWith (f : ℤ → ℚ × ℚ → List ℚ) (counts : List ℤ)
    (rs : List (ℚ × ℚ)) :
    (List.zipWith (fun n r => BinEntry.edges (f n r)) counts rs).all
      BinEntry.isEdges = true := by
  induction counts generalizing rs with
  | nil => rfl
  | cons c cs ih =>
    cases rs with
    | nil => rfl
    | cons r rt => simp [BinEntry.isEdges, ih]

/-- Indexing a `zipWith` with in-range defaults. -/
theorem getD_zipWith_lists (f : ℤ → ℚ × ℚ → List ℚ) (counts : List ℤ)
    (rs : List (ℚ × ℚ)) (i : ℕ) (h1 : i < counts.length) (h2 : i < rs.length) :
    (List.zipWith f counts rs).getD i [] = f (counts.getD i 0) (rs.getD i (0, 0)) := by
  induction counts generalizing rs i with
  | nil => simp at h1
  | cons c cs ih =>
    cases rs with
    | nil => simp at h2
    | cons r rt =>
      cases i with
      | zero => rfl
      | succ j =>
        simp only [List.zipWith_cons_cons, List.getD_cons_succ]
        exact ih rt j (by simpa using h1) (by simpa using h2)

/-- C3: for every (nonempty) list of bins given as positive integers with
an accompanying list of `(low, high)` ranges of the same length (and a
matching list of axis names, with `low < high` as the names indicate),
the normalizer succeeds, and for each axis `i` the produced edge array
is a monotonically increasing 1-D array of exactly `count_i + 1`
linearly spaced values (the `j`-th edge is
`low_i + (high_i - low_i) * j / count_i`) starting at `low_i` and ending
at `high_i`. -/
theorem simplify_integer_bins_yields_linear_edges (counts : List ℤ)
    (axs : List String) (rs : List (ℚ × ℚ))
    (hne : counts ≠ [])
    (hpos : ∀ c ∈ counts, 0 < c)
    (hlen1 : rs.length = counts.length)
    (hlen2 : axs.length = counts.length)
    (hrange : ∀ p ∈ rs, p.1 < p.2) :
    ∃ edgess : List (List ℚ),
      _simplify_binning_arguments (BinsArg.seq (counts.map BinEntry.count))
          (AxesArg.many axs) (some rs) = Except.ok (edgess, axs)
      ∧ edgess.length = counts.length
      ∧ ∀ i, i < counts.length →
          ((edgess.getD i []).length = (counts.getD i 0).toNat + 1
          ∧ (edgess.getD i []).head? = some (rs.getD i (0, 0)).1
          ∧ (edgess.getD i []).getLast? = some (rs.getD i (0, 0)).2
          ∧ (∀ j, j ≤ (counts.getD i 0).toNat →
              (edgess.getD i []).getD j 0
                = (rs.getD i (0, 0)).1
                  + ((rs.getD i (0, 0)).2 - (rs.getD i (0, 0)).1) * j
                    / ((counts.getD i 0 : ℤ) : ℚ))
          ∧ (∀ j, j + 1 < (edgess.getD i []).length →
              (edgess.getD i []).getD j 0 < (edgess.getD i []).getD (j + 1) 0)) := by
  refine ⟨List.zipWith (fun (n : ℤ) (r : ℚ × ℚ) =>
      linspaceQ r.1 r.2 (n + 1).toNat) counts rs, ?_, ?_, ?_⟩
  · -- the normalizer returns exactly these edge arrays
    have hall_triple : (counts.map BinEntry.count).all BinEntry.isTriple = false := by
      cases counts with
      | nil => exact absurd rfl hne
      | cons c cs => simp [BinEntry.isTriple]
    have hall_count : (counts.map BinEntry.count).all BinEntry.isCount = true := by
      simp [List.all_map, Function.comp, BinEntry.isCount]
    have hexp := explodeIntBins_ok counts rs hlen1 (fun c hc => le_of_lt (hpos c hc))
    have hedges := all_isEdges_zipWith
      (fun (n : ℤ) (r : ℚ × ℚ) => linspaceQ r.1 r.2 (n + 1).toNat) counts rs
    have hlen3 : axs.length
        = (List.zipWith (fun (n : ℤ) (r : ℚ × ℚ) =>
            BinEntry.edges (linspaceQ r.1 r.2 (n + 1).toNat)) counts rs).length := by
      rw [List.length_zipWith]
      omega
    rw [_simplify_binning_arguments.eq_def]
    simp only [hall_triple, Bool.false_eq_true, if_false, hall_count, if_true, hexp]
    rw [if_pos hedges, if_pos hlen3, List.map_zipWith]
  · rw [List.length_zipWith]
    omega
  · intro i hii
    have hir : i < rs.length := by omega
    have hmemc : counts.getD i 0 ∈ counts := by
      rw [List.getD_eq_getElem _ _ hii]
      exact List.getElem_mem _
    have hmemr : rs.getD i (0, 0) ∈ rs := by
      rw [List.getD_eq_getElem _ _ hir]
      exact List.getElem_mem _
    have hc : 0 < counts.getD i 0 := hpos _ hmemc
    have hr : (rs.getD i (0, 0)).1 < (rs.getD i (0, 0)).2 := hrange _ hmemr
    have hgz : (List.zipWith (fun (n : ℤ) (r : ℚ × ℚ) =>
        linspaceQ r.1 r.2 (n + 1).toNat) counts rs).getD i []
        = linspaceQ (rs.getD i (0, 0)).1 (rs.getD i (0, 0)).2
            ((counts.getD i 0 + 1).toNat) :=
      getD_zipWith_lists _ counts rs i hii hir
    rw [hgz]
    have htn : (counts.getD i 0 + 1).toNat = (counts.getD i 0).toNat + 1 := by omega
    have hk0 : (counts.getD i 0).toNat ≠ 0 := by omega
    have hcast : (((counts.getD i 0).toNat : ℚ)) = ((counts.getD i 0 : ℤ) : ℚ) := by
      exact_mod_cast congrArg (Int.cast : ℤ → ℚ)
        (Int.toNat_of_nonneg (le_of_lt hc))
    refine ⟨?_, ?_, ?_, ?_, ?_⟩
    · rw [linspaceQ_length, htn]
    · exact linspaceQ_head _ _ _ (by omega)
    · rw [htn]
      exact linspaceQ_getLast _ _ _ hk0
    · intro j hj
      rw [linspaceQ_getD _ _ _ _ (by omega)]
      rw [htn]
      have : ((((counts.getD i 0).toNat + 1 : ℕ) : ℚ) - 1)
          = ((counts.getD i 0 : ℤ) : ℚ) := by
        push_cast
        rw [← hcast]
        ring
      rw [this]
    · intro j hj
      rw [linspaceQ_length] at hj
      exact linspaceQ_strict_adj _ _ _ _ hr (by omega) hj

/-- Witness for C3 at bins `[2]`, axes `["x"]`, ranges `[(0, 1)]`. -/
theorem simplify_integer_bins_yields_linear_edges_witness :
    ∃ edgess : List (List ℚ),
      _simplify_binning_arguments (BinsArg.seq ([(2 : ℤ)].map BinEntry.count))
          (AxesArg.many ["x"]) (some [((0 : ℚ), (1 : ℚ))])
        = Except.ok (edgess, ["x"])
      ∧ edgess.length = [(2 : ℤ)].length
      ∧ ∀ i, i < [(2 : ℤ)].length →
          ((edgess.getD i []).length = ([(2 : ℤ)].getD i 0).toNat + 1
          ∧ (edgess.getD i []).head? = some ([((0 : ℚ), (1 : ℚ))].getD i (0, 0)).1
          ∧ (edgess.getD i []).getLast? = some ([((0 : ℚ), (1 : ℚ))].getD i (0, 0)).2
          ∧ (∀ j, j ≤ ([(2 : ℤ)].getD i 0).toNat →
              (edgess.getD i []).getD j 0
                = ([((0 : ℚ), (1 : ℚ))].getD i (0, 0)).1
                  + (([((0 : ℚ), (1 : ℚ))].getD i (0, 0)).2
                      - ([((0 : ℚ), (1 : ℚ))].getD i (0, 0)).1) * j
                    / (([(2 : ℤ)].getD i 0 : ℤ) : ℚ))
          ∧ (∀ j, j + 1 < (edgess.getD i []).length →
              (edgess.getD i []).getD j 0 < (edgess.getD i []).getD (j + 1) 0)) :=
  simplify_integer_bins_yields_linear_edges [(2 : ℤ)] ["x"] [((0 : ℚ), (1 : ℚ))]
    (by decide) (by decide) (by decide) (by decide) (by decide)

/-! ## The fast-mode slab split (C9) -/

/-- Slabs with a strictly smaller index end no later than where a larger
slab index begins, so two distinct slabs cannot share a first-axis
index. -/
theorem slab_no_overlap (S n j1 j2 k : ℕ) (h12 : j1 < j2)
    (hk1 : k < fastSlabHi S n j1) (hk2 : fastSlabLo S n j2 ≤ k) : False := by
  have hmul : (j1 + 1) * S ≤ j2 * S := Nat.mul_le_mul (Nat.succ_le_of_lt h12) (le_refl S)
  have : fastSlabHi S n j1 ≤ fastSlabLo S n j2 := Nat.div_le_div_right hmul
  omega

/-- Each first-axis index below `S` lies in a slab, and in only one. -/
theorem slab_exists (S n k : ℕ) (hn : 1 ≤ n) (hk : k < S) :
    ∃ j, j < n ∧ fastSlabLo S n j ≤ k ∧ k < fastSlabHi S n j ∧
      ∀ j', j' < n → fastSlabLo S n j' ≤ k → k < fastSlabHi S n j' → j' = j := by
  have hn0 : 0 < n := hn
  have hS : 0 < S := Nat.lt_of_le_of_lt (Nat.zero_le k) hk
  have hprod1 : 1 ≤ n * (k + 1) := Nat.mul_pos hn0 (Nat.succ_pos k)
  have hprodS : n * (k + 1) ≤ n * S := Nat.mul_le_mul (le_refl n) (Nat.succ_le_of_lt hk)
  have hcomm : (k + 1) * n = n * (k + 1) := Nat.mul_comm _ _
  have hlo : fastSlabLo S n ((n * (k + 1) - 1) / S) ≤ k := by
    have h1 : (n * (k + 1) - 1) / S * S ≤ n * (k + 1) - 1 := Nat.div_mul_le_self _ _
    have h2 : (n * (k + 1) - 1) / S * S < (k + 1) * n := by omega
    exact Nat.lt_succ_iff.mp ((Nat.div_lt_iff_lt_mul hn0).mpr h2)
  have hhi : k < fastSlabHi S n ((n * (k + 1) - 1) / S) := by
    have h3 : n * (k + 1) - 1 < ((n * (k + 1) - 1) / S + 1) * S :=
      (Nat.div_lt_iff_lt_mul hS).mp (Nat.lt_succ_self _)
    have h4 : (k + 1) * n ≤ ((n * (k + 1) - 1) / S + 1) * S := by omega
    exact Nat.lt_of_succ_le ((Nat.le_div_iff_mul_le hn0).mpr h4)
  refine ⟨(n * (k + 1) - 1) / S, ?_, hlo, hhi, ?_⟩
  · rw [Nat.div_lt_iff_lt_mul hS]
    omega
  · intro j' hj'n hlo' hhi'
    rcases Nat.lt_trichotomy j' ((n * (k + 1) - 1) / S) with h | h | h
    · exact absurd (slab_no_overlap S n j' _ k h hhi' hlo) (fun f => f)
    · exact h
    · exact absurd (slab_no_overlap S n _ j' k h hhi hlo') (fun f => f)

/-- No slab reaches a first-axis index `≥ S`. -/
theorem slab_inside (S n j k : ℕ) (hn : 1 ≤ n) (hjn : j < n)
    (_hlo : fastSlabLo S n j ≤ k) (hhi : k < fastSlabHi S n j) : k < S := by
  have h5 : (j + 1) * S ≤ n * S := Nat.mul_le_mul (Nat.succ_le_of_lt hjn) (le_refl S)
  have h6 : fastSlabHi S n j ≤ n * S / n := Nat.div_le_div_right h5
  rw [Nat.mul_div_cancel_left S hn] at h6
  omega

/-- C9: for every first-axis size `S ≥ 0` and every `n_cores ≥ 1`, the
"fast"-mode slab intervals
`[fastSlabLo S n j, fastSlabHi S n j) = [floor(j*S/n), floor((j+1)*S/n))`
for `j = 0, ..., n-1` are pairwise disjoint and their union is exactly
`[0, S)`: every first-axis index `k < S` lies in exactly one slab, and
no slab reaches an index `≥ S`.  Hence each batch of the fast-mode
combination writes every first-axis row of the running full result
exactly once, also when `S < n` (some slabs are then empty, but no index
is lost or written twice). -/
theorem fast_slabs_cover_disjointly (S n : ℕ) (hn : 1 ≤ n) :
    (∀ k, k < S → ∃! j, j < n ∧ fastSlabLo S n j ≤ k ∧ k < fastSlabHi S n j)
    ∧ (∀ j k, j < n → fastSlabLo S n j ≤ k → k < fastSlabHi S n j → k < S) := by
  constructor
  · intro k hk
    obtain ⟨j, hjn, hlo, hhi, huniq⟩ := slab_exists S n k hn hk
    exact ⟨j, ⟨hjn, hlo, hhi⟩, fun j' hj' => huniq j' hj'.1 hj'.2.1 hj'.2.2⟩
  · exact fun j k a b c => slab_inside S n j k hn a b c

/-- Witness for C9 at `S = 7`, `n_cores = 3` (uneven split: slabs
`[0,2) [2,4) [4,7)`). -/
theorem fast_slabs_cover_disjointly_witness :
    (∀ k, k < 7 → ∃! j, j < 3 ∧ fastSlabLo 7 3 j ≤ k ∧ k < fastSlabHi 7 3 j)
    ∧ (∀ j k, j < 3 → fastSlabLo 7 3 j ≤ k → k < fastSlabHi 7 3 j → k < 7) :=
  fast_slabs_cover_disjointly 7 3 (by decide)

/-! ## The combination arithmetic of the (unreachable) bin_dataframe body

The three combination strategies of binning.py lines 271-390 never
execute (see `bin_dataframe`), but their arithmetic is transcribed and
analysed here, supporting that the spec's mode-equivalence is what the
dead code would compute.  Every combination formula is elementwise, and
the only slicing is along the first axis, so a partial histogram is
modelled by its cells along the first axis (`ℕ → Option ℚ`), with
`Option.none` modelling a NaN cell (NaN is absorbing for `+`, and
`np.nan_to_num` maps it to 0).  A batch is the list of `core_results` of
one pass of the main loop. -/

/-- The cells of one partial histogram along the first axis. -/
def HistRow : Type := ℕ → Option ℚ

/-- Elementwise float addition; NaN (`none`) is absorbing. -/
def fadd : Option ℚ → Option ℚ → Option ℚ
  | some a, some b => some (a + b)
  | _, _ => Option.none

/-- Substitution `np.nan_to_num` on one cell. -/
def nan_to_num_cell : Option ℚ → Option ℚ
  | Option.none => some 0
  | some a => some a

/-- Elementwise `_arraysum` / `+=` on whole histograms (utils.py line 13). -/
def histAdd (f g : HistRow) : HistRow := fun i => fadd (f i) (g i)

/-- Zero array `np.zeros(full_shape)` / `np.zeros_like` (lines 271, 313, 379). -/
def zerosRow : HistRow := fun _ => some 0

/-- Embedding of `reduce(_arraysum, core_results)` (lines 322 and 343); Python's
`reduce` needs a nonempty list, which the `len(core_tasks) > 0` guard of
line 303 ensures. -/
def reduceSum : List HistRow → HistRow
  | [] => zerosRow
  | h :: t => t.foldl histAdd h

/-- The "lean" mode: per batch, fold the partial histograms into one
batch sum and add it to the running full result (lines 320-325). -/
def leanCombine (batches : List (List HistRow)) : HistRow :=
  batches.foldl
    (fun full batch =>
      if batch.isEmpty then full else histAdd full (reduceSum batch))
    zerosRow

/-- The "legacy" mode: per batch, accumulate the partials into a batch
result starting from zeros (lines 311-317); at the very end, accumulate
the batch results with NaN-to-zero substitution (lines 377-381). -/
def legacyCombine (batches : List (List HistRow)) : HistRow :=
  ((batches.filter (fun b => !b.isEmpty)).map
      (fun batch => batch.foldl histAdd zerosRow)).foldl
    (fun full pr => histAdd full (fun i => nan_to_num_cell (pr i)))
    zerosRow

/-- Slab write `full_result[lo:hi] += combine_results[j]` (lines 350-356): add the
slab values into the slab range of the running result. -/
def writeSlab (full : HistRow) (lo hi : ℕ) (slab : HistRow) : HistRow :=
  fun i => if lo ≤ i ∧ i < hi then fadd (full i) (slab (i - lo)) else full i

/-- One slab step of the "fast" mode: sum the cross-sections
`core_result[lo_j:hi_j]` of all partials of the batch (`combine_parts`,
lines 330-344), then write the slab sum into the corresponding slab of
the running result (lines 350-356). -/
def fastStep (S n : ℕ) (batch : List HistRow) (acc : HistRow) (j : ℕ) : HistRow :=
  writeSlab acc (fastSlabLo S n j) (fastSlabHi S n j)
    (reduceSum (batch.map fun r => fun t => r (fastSlabLo S n j + t)))

/-- One batch of the "fast" mode (lines 327-356): the slab step for each
of the `n_cores` slabs of the first axis. -/
def fastBatch (S n : ℕ) (full : HistRow) (batch : List HistRow) : HistRow :=
  (List.range n).foldl (fastStep S n batch) full

/-- The "fast" mode over all batches. -/
def fastCombine (S n : ℕ) (batches : List (List HistRow)) : HistRow :=
  batches.foldl
    (fun full batch =>
      if batch.isEmpty then full else fastBatch S n full batch)
    zerosRow

/-- The `return_partitions` path keeps every partition result and stacks
them (lines 306-308 and 366-374); summing the stack along the partition
dimension is folding `histAdd` over all partition results. -/
def stackSum (parts : List HistRow) : HistRow :=
  parts.foldl histAdd zerosRow

theorem fadd_assoc (a b c : Option ℚ) : fadd (fadd a b) c = fadd a (fadd b c) := by
  cases a <;> cases b <;> cases c <;> simp [fadd, add_assoc]

theorem fadd_zero_left (a : Option ℚ) : fadd (some 0) a = a := by
  cases a <;> simp [fadd]

theorem histAdd_assoc (f g h : HistRow) : histAdd (histAdd f g) h = histAdd f (histAdd g h) :=
  funext fun _ => fadd_assoc _ _ _

theorem reduceSum_shift (batch : List HistRow) (lo t : ℕ) :
    reduceSum (batch.map fun r => fun u => r (lo + u)) t = reduceSum batch (lo + t) := by
  cases batch with
  | nil => rfl
  | cons h tl =>
    simp only [List.map_cons, reduceSum]
    induction tl generalizing h with
    | nil => rfl
    | cons g tl ih =>
      simp only [List.map_cons, List.foldl_cons]
      have hshift : histAdd (fun u => h (lo + u)) (fun u => g (lo + u))
          = fun u => (histAdd h g) (lo + u) := rfl
      rw [hshift]
      exact ih (histAdd h g)

theorem foldl_histAdd_congr (t : List HistRow) (a1 a2 : HistRow) (i : ℕ)
    (h : a1 i = a2 i) :
    (t.foldl histAdd a1) i = (t.foldl histAdd a2) i := by
  induction t generalizing a1 a2 with
  | nil => exact h
  | cons r tl ih =>
    simp only [List.foldl_cons]
    exact ih _ _ (by simp only [histAdd, h])

theorem foldl_histAdd_at (l : List HistRow) (acc : HistRow) (i : ℕ) (hl : l ≠ []) :
    (l.foldl histAdd acc) i = fadd (acc i) (reduceSum l i) := by
  cases l with
  | nil => exact absurd rfl hl
  | cons r t =>
    simp only [List.foldl_cons, reduceSum]
    induction t generalizing acc r with
    | nil => rfl
    | cons g tl ih =>
      simp only [List.foldl_cons]
      rw [histAdd_assoc]
      exact ih acc (histAdd r g) (List.cons_ne_nil _ _)

theorem fastStep_at (S n : ℕ) (batch : List HistRow) (acc : HistRow) (j i : ℕ) :
    fastStep S n batch acc j i
      = if fastSlabLo S n j ≤ i ∧ i < fastSlabHi S n j
        then fadd (acc i) (reduceSum batch i) else acc i := by
  unfold fastStep writeSlab
  by_cases h : fastSlabLo S n j ≤ i ∧ i < fastSlabHi S n j
  · rw [if_pos h, if_pos h, reduceSum_shift, Nat.add_sub_cancel' h.1]
  · rw [if_neg h, if_neg h]

theorem foldl_fastStep_no_touch (S n : ℕ) (batch : List HistRow) (js : List ℕ)
    (acc : HistRow) (i : ℕ)
    (h : ∀ j ∈ js, ¬(fastSlabLo S n j ≤ i ∧ i < fastSlabHi S n j)) :
    (js.foldl (fastStep S n batch) acc) i = acc i := by
  induction js generalizing acc with
  | nil => rfl
  | cons j t ih =>
    rw [List.foldl_cons, ih _ (fun x hx => h x (by simp [hx])),
      fastStep_at, if_neg (h j (by simp))]

theorem fastBatch_at (S n : ℕ) (hn : 1 ≤ n) (full : HistRow) (batch : List HistRow)
    (i : ℕ) (hiS : i < S) :
    fastBatch S n full batch i = fadd (full i) (reduceSum batch i) := by
  obtain ⟨j0, hj0n, hlo, hhi, huniq⟩ := slab_exists S n i hn hiS
  have hsplit : List.range n = List.range j0 ++ j0 :: List.range' (j0 + 1) (n - j0 - 1) := by
    have h1 : List.range' 0 j0 1 ++ List.range' (0 + 1 * j0) (n - j0) 1
        = List.range' 0 ((n - j0) + j0) 1 := List.range'_append 0 j0 (n - j0) 1
    have h2 : (n - j0) + j0 = n := by omega
    have h3 : n - j0 = (n - j0 - 1) + 1 := by omega
    rw [List.range_eq_range', ← h2, ← h1, h3, List.range'_succ]
    simp [List.range_eq_range']
  unfold fastBatch
  rw [hsplit, List.foldl_append, List.foldl_cons]
  have houter : ∀ j ∈ List.range' (j0 + 1) (n - j0 - 1),
      ¬(fastSlabLo S n j ≤ i ∧ i < fastSlabHi S n j) := by
    intro j hj hc
    have hmem := List.mem_range'_1.mp hj
    have : j = j0 := huniq j (by omega) hc.1 hc.2
    omega
  rw [foldl_fastStep_no_touch S n batch _ _ i houter]
  rw [fastStep_at, if_pos ⟨hlo, hhi⟩]
  have hinner : ∀ j ∈ List.range j0,
      ¬(fastSlabLo S n j ≤ i ∧ i < fastSlabHi S n j) := by
    intro j hj hc
    have hmem := List.mem_range.mp hj
    have : j = j0 := huniq j (by omega) hc.1 hc.2
    omega
  rw [foldl_fastStep_no_touch S n batch _ _ i hinner]

theorem fastCombine_eq_leanCombine (S n : ℕ) (hn : 1 ≤ n)
    (batches : List (List HistRow)) (i : ℕ) (hiS : i < S) :
    fastCombine S n batches i = leanCombine batches i := by
  unfold fastCombine leanCombine
  suffices h : ∀ accF accL : HistRow, accF i = accL i →
      (batches.foldl
        (fun full batch => if batch.isEmpty then full else fastBatch S n full batch)
        accF) i
      = (batches.foldl
        (fun full batch => if batch.isEmpty then full else histAdd full (reduceSum batch))
        accL) i by
    exact h zerosRow zerosRow rfl
  intro accF accL h
  induction batches generalizing accF accL with
  | nil => exact h
  | cons b bs ih =>
    simp only [List.foldl_cons]
    apply ih
    by_cases hb : b.isEmpty
    · rw [if_pos hb, if_pos hb]
      exact h
    · rw [if_neg hb, if_neg hb, fastBatch_at S n hn _ _ i hiS]
      show fadd (accF i) (reduceSum b i) = fadd (accL i) (reduceSum b i)
      rw [h]

theorem leanCombine_eq_stackSum (batches : List (List HistRow)) (i : ℕ) :
    leanCombine batches i = stackSum batches.flatten i := by
  unfold leanCombine stackSum
  suffices h : ∀ accL accS : HistRow, accL i = accS i →
      (batches.foldl
        (fun full batch => if batch.isEmpty then full else histAdd full (reduceSum batch))
        accL) i
      = (batches.flatten.foldl histAdd accS) i by
    exact h zerosRow zerosRow rfl
  intro accL accS h
  induction batches generalizing accL accS with
  | nil => exact h
  | cons b bs ih =>
    simp only [List.foldl_cons, List.flatten_cons, List.foldl_append]
    apply ih
    by_cases hb : b.isEmpty
    · rw [if_pos hb]
      rw [List.isEmpty_iff.mp hb]
      exact h
    · rw [if_neg hb, foldl_histAdd_at b accS i (by simpa [List.isEmpty_iff] using hb)]
      show fadd (accL i) (reduceSum b i) = fadd (accS i) (reduceSum b i)
      rw [h]

theorem fadd_ne_none {a b : Option ℚ} (ha : a ≠ Option.none) (hb : b ≠ Option.none) :
    fadd a b ≠ Option.none := by
  cases a with
  | none => exact absurd rfl ha
  | some x =>
    cases b with
    | none => exact absurd rfl hb
    | some y => simp [fadd]

theorem nan_to_num_cell_ne_none (a : Option ℚ) : nan_to_num_cell a ≠ Option.none := by
  cases a <;> simp [nan_to_num_cell]

theorem nan_to_num_cell_of_ne_none {a : Option ℚ} (h : a ≠ Option.none) :
    nan_to_num_cell a = a := by
  cases a with
  | none => exact absurd rfl h
  | some x => rfl

theorem foldl_histAdd_ne_none (t : List HistRow) (acc : HistRow) (i : ℕ)
    (hacc : acc i ≠ Option.none) (h : ∀ r ∈ t, r i ≠ Option.none) :
    (t.foldl histAdd acc) i ≠ Option.none := by
  induction t generalizing acc with
  | nil => exact hacc
  | cons r tl ih =>
    rw [List.foldl_cons]
    exact ih _ (fadd_ne_none hacc (h r (by simp))) (fun x hx => h x (by simp [hx]))

theorem reduceSum_ne_none (b : List HistRow) (i : ℕ) (hne : b ≠ [])
    (h : ∀ r ∈ b, r i ≠ Option.none) : reduceSum b i ≠ Option.none := by
  cases b with
  | nil => exact absurd rfl hne
  | cons r t =>
    exact foldl_histAdd_ne_none t r i (h r (by simp)) (fun x hx => h x (by simp [hx]))

theorem legacyCombine_eq_leanCombine (batches : List (List HistRow)) (i : ℕ)
    (hnn : ∀ b ∈ batches, ∀ r ∈ b, r i ≠ Option.none) :
    legacyCombine batches i = leanCombine batches i := by
  unfold legacyCombine leanCombine
  rw [List.foldl_map]
  suffices h : ∀ (L : List (List HistRow)) (acc1 acc2 : HistRow),
      (∀ b ∈ L, ∀ r ∈ b, r i ≠ Option.none) → acc1 i = acc2 i →
      ((L.filter (fun b => !b.isEmpty)).foldl
        (fun full batch =>
          histAdd full (fun j => nan_to_num_cell ((batch.foldl histAdd zerosRow) j)))
        acc1) i
      = (L.foldl
        (fun full batch => if batch.isEmpty then full else histAdd full (reduceSum batch))
        acc2) i by
    exact h batches zerosRow zerosRow hnn rfl
  intro L
  induction L with
  | nil => exact fun acc1 acc2 _ hacc => hacc
  | cons b bs ih =>
    intro acc1 acc2 hL hacc
    rw [List.filter_cons]
    by_cases hb : b.isEmpty
    · have : (!b.isEmpty) = false := by simp [hb]
      rw [this, if_neg (by simp), List.foldl_cons, if_pos hb]
      exact ih _ _ (fun x hx => hL x (by simp [hx])) hacc
    · have hbt : (!b.isEmpty) = true := by simp [hb]
      have hbne : b ≠ [] := by simpa [List.isEmpty_iff] using hb
      rw [hbt, if_pos rfl, List.foldl_cons, List.foldl_cons, if_neg hb]
      apply ih _ _ (fun x hx => hL x (by simp [hx]))
      show fadd (acc1 i) (nan_to_num_cell ((b.foldl histAdd zerosRow) i))
        = fadd (acc2 i) (reduceSum b i)
      rw [foldl_histAdd_at b zerosRow i hbne]
      show fadd (acc1 i) (nan_to_num_cell (fadd (some 0) (reduceSum b i)))
        = fadd (acc2 i) (reduceSum b i)
      rw [fadd_zero_left,
        nan_to_num_cell_of_ne_none (reduceSum_ne_none b i hbne (hL b (by simp))), hacc]

theorem legacyCombine_ne_none (batches : List (List HistRow)) (i : ℕ) :
    legacyCombine batches i ≠ Option.none := by
  unfold legacyCombine
  rw [List.foldl_map]
  suffices h : ∀ (L : List (List HistRow)) (acc : HistRow), acc i ≠ Option.none →
      ((L.filter (fun b => !b.isEmpty)).foldl
        (fun full batch =>
          histAdd full (fun j => nan_to_num_cell ((batch.foldl histAdd zerosRow) j)))
        acc) i ≠ Option.none by
    exact h batches zerosRow (by simp [zerosRow])
  intro L
  induction L with
  | nil => exact fun acc hacc => hacc
  | cons b bs ih =>
    intro acc hacc
    rw [List.filter_cons]
    by_cases hb : b.isEmpty
    · have : (!b.isEmpty) = false := by simp [hb]
      rw [this, if_neg (by simp)]
      exact ih _ hacc
    · have hbt : (!b.isEmpty) = true := by simp [hb]
      rw [hbt, if_pos rfl, List.foldl_cons]
      exact ih _ (fadd_ne_none hacc (nan_to_num_cell_ne_none _))

/-- Mode equivalence of the (unreachable) combination arithmetic: at
every first-axis index of the full shape, the "fast", "lean" and
"legacy" strategies agree, and agree with summing the
`return_partitions` stack along the partition dimension, whenever the
partial histograms hold no NaN (which the counting kernels guarantee);
this is the equivalence the spec asserts for `bin_dataframe`, holding
for the code the unpacking bug prevents from running. -/
theorem combination_modes_agree (S n : ℕ) (hn : 1 ≤ n)
    (batches : List (List HistRow)) (i : ℕ) (hiS : i < S)
    (hnn : ∀ b ∈ batches, ∀ r ∈ b, r i ≠ Option.none) :
    fastCombine S n batches i = leanCombine batches i
    ∧ legacyCombine batches i = leanCombine batches i
    ∧ stackSum batches.flatten i = leanCombine batches i :=
  ⟨fastCombine_eq_leanCombine S n hn batches i hiS,
   legacyCombine_eq_leanCombine batches i hnn,
   (leanCombine_eq_stackSum batches i).symm⟩
